import Mathlib

/-!
Verification development for the dynastorev2 package: a typed CRUD store over
a partition/sort-key addressed key-value backend (DynamoDB via the AWS Go SDK).

The embedding models the condition-building, update-clause construction,
version handling, error remapping and the pagination cursor codec of
`dynastore.go` / `options.go`, together with the backend semantics of a
conditional update/delete on a single item slot (the backend evaluates the
condition against the stored item — or an empty item when none exists — and
on success applies the update clauses, returning the post-update image).

Attribute values are modelled as already-marshalled scalars (`AttrVal`):
the Go code marshals keys and payloads via `attributevalue.Marshal`, which for
the scalar `Key` types cannot fail, so marshalling is not a source of errors
in the modelled flows.
-/

/-- A marshalled DynamoDB attribute value: string (S), number (N) or binary (B).
DynamoDB numbers are arbitrary precision, so `Int` is exact, not a truncation. -/
inductive AttrVal where
  | s (v : String)
  | n (v : Int)
  | b (v : List Nat)
deriving DecidableEq

/-- `true` exactly for text (S) attributes. -/
def isTextAttr : AttrVal → Bool
  | .s _ => true
  | _ => false

/-- A stored item: an association list from attribute name to value. -/
def Item := List (String × AttrVal)
deriving DecidableEq

/-- Look up an attribute by name (first match wins). -/
def getAttr : Item → String → Option AttrVal
  | [], _ => none
  | (k, v) :: rest, key => if k = key then some v else getAttr rest key

/-- Remove every binding of an attribute name. -/
def removeAttr (it : Item) (key : String) : Item :=
  it.filter (fun p => !(p.1 = key : Bool))

/-- Set an attribute, replacing any previous binding. -/
def setAttr (it : Item) (key : String) (v : AttrVal) : Item :=
  (key, v) :: removeAttr it key

/-- Condition expressions used by the store: attribute existence tests,
equality against a value, and conjunction (`dexp.AttributeExists`,
`dexp.AttributeNotExists`, `dexp.Equal`, `.And`). -/
inductive Cond where
  | attrExists (name : String)
  | attrNotExists (name : String)
  | eqAttr (name : String) (v : AttrVal)
  | and (a b : Cond)
deriving DecidableEq

/-- Evaluate a condition against an item. The backend evaluates conditions
against the stored item; when no item exists it behaves as an empty item. -/
def evalCond : Cond → Item → Bool
  | .attrExists name, it => (getAttr it name).isSome
  | .attrNotExists name, it => !(getAttr it name).isSome
  | .eqAttr name v, it => getAttr it name = some v
  | .and a b, it => evalCond a it && evalCond b it

/-- Update clauses emitted by `buildUpdate`: `dexp.Add` (numeric add, absent
attribute treated as zero) and `dexp.Set`. -/
inductive Clause where
  | add (name : String) (v : Int)
  | set (name : String) (v : AttrVal)
deriving DecidableEq

/-- The attribute name a clause writes. -/
def clauseName : Clause → String
  | .add name _ => name
  | .set name _ => name

/-- Apply one update clause to an item. `add` follows DynamoDB ADD semantics
on numbers: an absent attribute counts as zero. (DynamoDB would reject ADD on
an existing non-number attribute; the modelled flows only ever ADD to the
version attribute, which is absent or a number.) -/
def applyClause (it : Item) : Clause → Item
  | .add name v =>
      match getAttr it name with
      | some (.n x) => setAttr it name (.n (x + v))
      | _ => setAttr it name (.n v)
  | .set name v => setAttr it name v

/-- Apply the update clauses left to right. -/
def applyUpdate (it : Item) (cs : List Clause) : Item :=
  cs.foldl applyClause it

/-- The number DynamoDB ADD starts from: the current numeric value, or zero
when the attribute is absent. -/
def addBase : Option AttrVal → Int
  | some (.n x) => x
  | _ => 0

/-- fieldsDef: names of the core fields used to manage data in this table. -/
structure fieldsDef where
  partitionKeyName : String
  sortKeyName : String
  expiresName : String
  versionName : String
  payloadName : String
deriving DecidableEq

/-- The default field naming installed by `New` (no store option in this code
rebinds field names). -/
def defaultFields : fieldsDef :=
  { partitionKeyName := "id"
    sortKeyName := "name"
    expiresName := "expires"
    versionName := "version"
    payloadName := "payload" }

/-- The only error the modelled backend raises: a conditional check failure
(`types.ConditionalCheckFailedException`). -/
inductive DynError where
  | conditionalCheckFailed
deriving DecidableEq

/-- Store-level errors: `ErrReservedField`, `ErrDeleteFailedKeyNotExists`,
a wrapped backend error (Go wraps with a static prefix but the underlying
error remains inspectable, so the kind is preserved), and a codec failure
(failed attribute marshal/unmarshal or cursor decode). -/
inductive StoreError where
  | reservedField
  | deleteFailedKeyNotExists
  | backendError (e : DynError)
  | codecError
deriving DecidableEq

/-- writeOptions: extra fields, TTL, expected version, create-guard flag.
Extra fields are modelled as an association list of already-marshalled
values (Go iterates a map; the reserved-field check fires on any reserved
key it meets). -/
structure writeOptions where
  extraFields : List (String × AttrVal)
  ttl : Int
  version : Int
  createConstraintDisabled : Bool
deriving DecidableEq

/-- `defaultWriteOptions`: empty extra fields, zero TTL; `version` and
`createConstraintDisabled` are Go zero values. -/
def defaultWriteOptions : writeOptions :=
  { extraFields := [], ttl := 0, version := 0, createConstraintDisabled := false }

/-- `writeWithVersion`: sets the expected version for optimistic locking. -/
def writeWithVersion (v : Int) (opts : writeOptions) : writeOptions :=
  { opts with version := v }

/-- `writeWithCreateConstraintDisabled`: disables the create existence guard. -/
def writeWithCreateConstraintDisabled (d : Bool) (opts : writeOptions) : writeOptions :=
  { opts with createConstraintDisabled := d }

/-- deleteOptions: whether Delete attaches the existence condition. -/
structure deleteOptions where
  existsCheck : Bool
deriving DecidableEq

/-- `defaultDeleteOptions`: the existence check is enabled by default. -/
def defaultDeleteOptions : deleteOptions :=
  { existsCheck := true }

/-- OperationResult: the post-operation version and (for lists) the
continuation cursor. The opaque consumed-capacity metadata is omitted. -/
structure OperationResult where
  Version : Int
  LastEvaluatedKey : String := ""
deriving DecidableEq

/-- `isReservedField`: a key collides with one of the five reserved names. -/
def isReservedField (f : fieldsDef) (k : String) : Bool :=
  [f.partitionKeyName, f.sortKeyName, f.expiresName, f.versionName, f.payloadName].contains k

/-- The extra-fields loop of `buildUpdate`: for each entry, fail with
`ErrReservedField` on a reserved key, otherwise append a SET clause. -/
def addExtraFields (f : fieldsDef) (cs : List Clause) :
    List (String × AttrVal) → Except StoreError (List Clause)
  | [] => .ok cs
  | (k, v) :: rest =>
      if isReservedField f k then .error .reservedField
      else addExtraFields f (cs ++ [.set k v]) rest

/-- `buildUpdate`: ADD 1 to the version attribute, SET the literal "payload"
attribute to the marshalled value, SET each extra field (reserved names
rejected), and SET the literal "expires" attribute to now + ttl when ttl > 0.
`now` stands for the `time.Now()` call inside the Go function. -/
def buildUpdate (f : fieldsDef) (value : AttrVal) (now : Int) (opts : writeOptions) :
    Except StoreError (List Clause) :=
  match addExtraFields f [.add f.versionName 1, .set "payload" value] opts.extraFields with
  | .error e => .error e
  | .ok cs =>
      if opts.ttl > 0 then .ok (cs ++ [.set "expires" (.n (now + opts.ttl))])
      else .ok cs

/-- `buildKey`: the key attribute map sent with every request. -/
def keyItem (f : fieldsDef) (pk sk : AttrVal) : Item :=
  [(f.partitionKeyName, pk), (f.sortKeyName, sk)]

/-- A built conditional-update request: key map, optional condition
expression and update clauses (`dynamodb.UpdateItemInput`). -/
structure UpdateRequest where
  key : Item
  condition : Option Cond
  update : List Clause
deriving DecidableEq

/-- Backend `UpdateItem` with ReturnValues=ALL_NEW on a single item slot:
the condition is evaluated against the stored item (empty when absent); on
success the clauses are applied to the stored item, or to a fresh item
holding only the key attributes when none exists, and the new image is
returned. -/
def updateItem (slot : Option Item) (req : UpdateRequest) : Except DynError Item :=
  let pass := match req.condition with
    | none => true
    | some c => evalCond c (slot.getD [])
  if pass then .ok (applyUpdate (slot.getD req.key) req.update)
  else .error .conditionalCheckFailed

/-- Backend `DeleteItem` on a single item slot: evaluate the condition (if
any) against the stored item (empty when absent); on success the slot is
cleared (deleting a nonexistent item unconditionally is a no-op success). -/
def deleteItem (slot : Option Item) (cond : Option Cond) : Except DynError (Option Item) :=
  let pass := match cond with
    | none => true
    | some c => evalCond c (slot.getD [])
  if pass then .ok none
  else .error .conditionalCheckFailed

/-- Decode the version attribute of a response image into an int64:
absent decodes to zero; a non-number attribute is an unmarshal failure. -/
def decodeVersion (a : Option AttrVal) : Except StoreError Int :=
  match a with
  | none => .ok 0
  | some (.n v) => .ok v
  | some _ => .error .codecError

/-- `attributevalue.Unmarshal` into an int64-valued payload type (a sample
value decoder for a store instantiated at an integer value type). -/
def decodeIntAttr : AttrVal → Except StoreError Int
  | .n v => .ok v
  | _ => .error .codecError

/-- Create's condition. Modelled from the spec: the branch reading
`createConstraintDisabled` is missing from src/dynastore.go (which attaches
the not-exists guard unconditionally and predates the option's wiring);
the option constructor `writeWithCreateConstraintDisabled` (options.go) and
the integration test exercising it are the only traces under src/. Per the
spec, the guard "partition key attribute does not exist AND sort key
attribute does not exist" is attached unless the option disables it. -/
def createCondition (f : fieldsDef) (opts : writeOptions) : Option Cond :=
  if opts.createConstraintDisabled then none
  else some ((Cond.attrNotExists f.partitionKeyName).and (.attrNotExists f.sortKeyName))

/-- Update's condition: both key attributes exist, and additionally the
version attribute equals the expected version when that option is > 0. -/
def updateCondition (f : fieldsDef) (opts : writeOptions) : Cond :=
  let base := (Cond.attrExists f.partitionKeyName).and (.attrExists f.sortKeyName)
  if opts.version > 0 then base.and (.eqAttr f.versionName (.n opts.version))
  else base

/-- Delete's condition: both key attributes exist when the check is enabled,
no condition otherwise. -/
def deleteCondition (f : fieldsDef) (opts : deleteOptions) : Option Cond :=
  if opts.existsCheck then
    some ((Cond.attrExists f.partitionKeyName).and (.attrExists f.sortKeyName))
  else none

/-- The conditional-update request Create builds and sends to the backend. -/
def buildCreateRequest (f : fieldsDef) (pk sk value : AttrVal) (now : Int)
    (opts : writeOptions) : Except StoreError UpdateRequest :=
  match buildUpdate f value now opts with
  | .error e => .error e
  | .ok upd => .ok { key := keyItem f pk sk, condition := createCondition f opts, update := upd }

/-- The conditional-update request Update builds and sends to the backend. -/
def buildUpdateRequest (f : fieldsDef) (pk sk value : AttrVal) (now : Int)
    (opts : writeOptions) : Except StoreError UpdateRequest :=
  match buildUpdate f value now opts with
  | .error e => .error e
  | .ok upd => .ok { key := keyItem f pk sk, condition := some (updateCondition f opts), update := upd }

/-- Run a built request against the slot and decode the post-update version,
as `doUpdate` plus the result-decoding tail of Create/Update. Returns the
call's result together with the slot as the backend leaves it. A backend
conditional failure is passed through (wrapped, kind preserved), not remapped
to a store-defined error. -/
def runWrite (f : fieldsDef) (req : Except StoreError UpdateRequest) (slot : Option Item) :
    Except StoreError OperationResult × Option Item :=
  match req with
  | .error e => (.error e, slot)
  | .ok r =>
      match updateItem slot r with
      | .error e => (.error (.backendError e), slot)
      | .ok newItem =>
          match decodeVersion (getAttr newItem f.versionName) with
          | .error e => (.error e, some newItem)
          | .ok v => (.ok { Version := v }, some newItem)

/-- `Create`: build the update clauses and the create condition, send the
conditional update, decode the post-update version. -/
def create (f : fieldsDef) (pk sk value : AttrVal) (now : Int) (opts : writeOptions)
    (slot : Option Item) : Except StoreError OperationResult × Option Item :=
  runWrite f (buildCreateRequest f pk sk value now opts) slot

/-- `Update`: build the update clauses and the update condition (with the
optimistic-lock clause when an expected version > 0 is supplied), send the
conditional update, decode the post-update version. -/
def update (f : fieldsDef) (pk sk value : AttrVal) (now : Int) (opts : writeOptions)
    (slot : Option Item) : Except StoreError OperationResult × Option Item :=
  runWrite f (buildUpdateRequest f pk sk value now opts) slot

/-- `Delete`: attach the existence condition when enabled; a backend
conditional failure is remapped to `ErrDeleteFailedKeyNotExists`. -/
def delete (f : fieldsDef) (opts : deleteOptions) (slot : Option Item) :
    Except StoreError Unit × Option Item :=
  match deleteItem slot (deleteCondition f opts) with
  | .error .conditionalCheckFailed => (.error .deleteFailedKeyNotExists, slot)
  | .ok newSlot => (.ok (), newSlot)

/-- `Get`: decode the payload attribute when present (absent payload yields
the value type's zero value `z` with no error), then decode the version
attribute (absent decodes to zero). `item` is the backend response's item
map, empty when the item does not exist; `decodeV` stands for
`attributevalue.Unmarshal` into the value type. -/
def Get {V : Type} (f : fieldsDef) (item : Item)
    (decodeV : AttrVal → Except StoreError V) (z : V) :
    Except StoreError (OperationResult × V) :=
  match (match getAttr item f.payloadName with
         | some a => decodeV a
         | none => .ok z) with
  | .error e => .error e
  | .ok val =>
      match decodeVersion (getAttr item f.versionName) with
      | .error e => .error e
      | .ok ver => .ok ({ Version := ver }, val)

/-! ### Pagination cursor codec

`encodeLastEvaluatedKey` projects the backend's last-evaluated-key attribute
map to a string map, serializes it as a JSON object and encodes the bytes
with URL-safe, padding-free base64 (`base64.RawURLEncoding`).
`parseLastEvaluatedKey` reverses each step. The JSON and base64 layers are
standard-library collaborators in Go; they are modelled here as executable
codecs: a JSON object serializer for string maps (escaping the quote and
backslash characters) and RawURL base64 over byte lists. -/

/-- The URL-safe base64 alphabet. -/
def b64Chars : List Char :=
  "ABCDEFGHIJKLMNOPQRSTUVWXYZabcdefghijklmnopqrstuvwxyz0123456789-_".toList

/-- The alphabet character for a six-bit value. -/
def charOfSextet (s : Nat) : Char :=
  b64Chars.getD s 'A'

/-- Position of a character in a list, counting from `i`. -/
def charIdx : List Char → Char → Nat → Option Nat
  | [], _, _ => none
  | a :: rest, c, i => if a = c then some i else charIdx rest c (i + 1)

/-- The six-bit value of an alphabet character, if any. -/
def sextetOfChar (c : Char) : Option Nat :=
  charIdx b64Chars c 0

/-- RawURL base64: encode bytes three at a time into four characters, with
two (resp. three) characters for a trailing one (resp. two) bytes and no
padding. -/
def b64Encode : List Nat → List Char
  | [] => []
  | [a] => [charOfSextet (a / 4), charOfSextet (a % 4 * 16)]
  | [a, b] =>
      [charOfSextet (a / 4), charOfSextet (a % 4 * 16 + b / 16), charOfSextet (b % 16 * 4)]
  | a :: b :: c :: rest =>
      charOfSextet (a / 4) :: charOfSextet (a % 4 * 16 + b / 16) ::
        charOfSextet (b % 16 * 4 + c / 64) :: charOfSextet (c % 64) :: b64Encode rest

/-- RawURL base64 decoding: four characters yield three bytes, a trailing
two (resp. three) characters yield one (resp. two) bytes; a single trailing
character or a character outside the alphabet is an error. -/
def b64Decode : List Char → Option (List Nat)
  | [] => some []
  | [c1, c2] =>
      match sextetOfChar c1, sextetOfChar c2 with
      | some s1, some s2 => some [s1 * 4 + s2 / 16]
      | _, _ => none
  | [c1, c2, c3] =>
      match sextetOfChar c1, sextetOfChar c2, sextetOfChar c3 with
      | some s1, some s2, some s3 => some [s1 * 4 + s2 / 16, s2 % 16 * 16 + s3 / 4]
      | _, _, _ => none
  | c1 :: c2 :: c3 :: c4 :: rest =>
      match sextetOfChar c1, sextetOfChar c2, sextetOfChar c3, sextetOfChar c4,
            b64Decode rest with
      | some s1, some s2, some s3, some s4, some bs =>
          some ((s1 * 4 + s2 / 16) :: (s2 % 16 * 16 + s3 / 4) :: (s3 % 4 * 64 + s4) :: bs)
      | _, _, _, _, _ => none
  | _ => none

/-- UTF-8 encoding of one character (1-4 bytes). -/
def utf8EncodeChar (c : Char) : List Nat :=
  if c.toNat < 128 then [c.toNat]
  else if c.toNat < 2048 then [192 + c.toNat / 64, 128 + c.toNat % 64]
  else if c.toNat < 65536 then
    [224 + c.toNat / 4096, 128 + c.toNat / 64 % 64, 128 + c.toNat % 64]
  else
    [240 + c.toNat / 262144, 128 + c.toNat / 4096 % 64, 128 + c.toNat / 64 % 64,
      128 + c.toNat % 64]

/-- UTF-8 encoding of a character list. -/
def utf8Encode (s : List Char) : List Nat :=
  (s.map utf8EncodeChar).flatten

/-- The continuation of a two-byte UTF-8 sequence with leading byte `v`. -/
def utf8Dec2 (v : Nat) : List Nat → Option (Char × List Nat)
  | v2 :: rest2 => some (Char.ofNat ((v - 192) * 64 + (v2 - 128)), rest2)
  | _ => none

/-- The continuation of a three-byte UTF-8 sequence with leading byte `v`. -/
def utf8Dec3 (v : Nat) : List Nat → Option (Char × List Nat)
  | v2 :: v3 :: rest3 =>
      some (Char.ofNat ((v - 224) * 4096 + (v2 - 128) * 64 + (v3 - 128)), rest3)
  | _ => none

/-- The continuation of a four-byte UTF-8 sequence with leading byte `v`. -/
def utf8Dec4 (v : Nat) : List Nat → Option (Char × List Nat)
  | v2 :: v3 :: v4 :: rest4 =>
      some (Char.ofNat ((v - 240) * 262144 + (v2 - 128) * 4096 + (v3 - 128) * 64 +
        (v4 - 128)), rest4)
  | _ => none

/-- Decode one UTF-8 sequence: the leading byte determines the length;
returns the character and the remaining bytes. -/
def utf8DecodeChar : List Nat → Option (Char × List Nat)
  | [] => none
  | v :: rest =>
      if v < 128 then some (Char.ofNat v, rest)
      else if v < 224 then utf8Dec2 v rest
      else if v < 240 then utf8Dec3 v rest
      else utf8Dec4 v rest

/-- Fuelled decoding loop; every step consumes at least one byte, so the
byte count is always enough fuel. -/
def utf8DecodeAux : Nat → List Nat → Option (List Char)
  | _, [] => some []
  | 0, _ :: _ => none
  | fuel + 1, v :: rest =>
      match utf8DecodeChar (v :: rest) with
      | none => none
      | some (c, rest2) => (utf8DecodeAux fuel rest2).map (c :: ·)

/-- UTF-8 decoding of a byte list. -/
def utf8Decode (l : List Nat) : Option (List Char) :=
  utf8DecodeAux l.length l

/-- JSON string escaping for the characters that would end or escape the
literal. -/
def escapeChar (c : Char) : List Char :=
  if c = '"' ∨ c = '\\' then ['\\', c] else [c]

/-- A JSON string literal (both quotes included). -/
def renderString (s : List Char) : List Char :=
  '"' :: (s.map escapeChar).flatten ++ ['"']

/-- The comma-separated `"key":"value"` entries of a JSON object. -/
def renderEntries : List (String × String) → List Char
  | [] => []
  | [(k, v)] => renderString k.data ++ ':' :: renderString v.data
  | (k, v) :: rest => renderString k.data ++ ':' :: renderString v.data ++ ',' :: renderEntries rest

/-- A JSON object for a string map (entries in list order; Go serializes map
keys in sorted order, which round-trips identically since the decoded map is
order-insensitive). -/
def renderObj (m : List (String × String)) : List Char :=
  '{' :: renderEntries m ++ ['}']

/-- Parse a JSON string literal after its opening quote: returns the content
and the remainder after the closing quote. A backslash makes the next
character literal. -/
def parseString : List Char → Option (List Char × List Char)
  | [] => none
  | [c] => if c = '"' then some ([], []) else none
  | c :: c2 :: rest =>
      if c = '\\' then (parseString rest).map (fun p => (c2 :: p.1, p.2))
      else if c = '"' then some ([], c2 :: rest)
      else (parseString (c2 :: rest)).map (fun p => (c :: p.1, p.2))

/-- Parse one `"key":"value"` object entry, returning the pair and the
remainder (starting at the character after the value's closing quote). -/
def parseEntry (cs : List Char) : Option ((String × String) × List Char) :=
  match cs with
  | [] => none
  | c :: rest =>
      if c = '"' then
        match parseString rest with
        | none => none
        | some (k, r1) =>
            match r1 with
            | c1 :: c2 :: r2 =>
                if c1 = ':' ∧ c2 = '"' then
                  match parseString r2 with
                  | none => none
                  | some (v, r3) => some ((String.mk k, String.mk v), r3)
                else none
            | _ => none
      else none

/-- After an entry: a comma continues the entry list, a closing brace ends
it, anything else is malformed. -/
def parseEntriesStep (e : Option ((String × String) × List Char))
    (k : List Char → Option (List (String × String) × List Char)) :
    Option (List (String × String) × List Char) :=
  match e with
  | none => none
  | some (kv, r3) =>
      match r3 with
      | [] => none
      | c3 :: r4 =>
          if c3 = ',' then (k r4).map (fun p => (kv :: p.1, p.2))
          else if c3 = '}' then some ([kv], r4)
          else none

/-- Parse one or more comma-separated object entries followed by the closing
brace, returning the entries and the remainder after the brace. The fuel
bounds the number of entries. -/
def parseEntries : Nat → List Char → Option (List (String × String) × List Char)
  | 0, _ => none
  | fuel + 1, cs => parseEntriesStep (parseEntry cs) (fun r4 => parseEntries fuel r4)

/-- Parse a whole JSON object holding a string map; the input must be exactly
one object. -/
def parseObj (cs : List Char) : Option (List (String × String)) :=
  match cs with
  | [] => none
  | c :: rest =>
      if c = '{' then
        if rest = ['}'] then some []
        else
          match parseEntries (rest.length + 1) rest with
          | some (m, []) => some m
          | _ => none
      else none

/-- Project an attribute value to its text representation; non-text
attributes fail (as `attributevalue.Unmarshal` into a string does). -/
def attrToText : AttrVal → Except StoreError String
  | .s v => .ok v
  | _ => .error .codecError

/-- `attributevalue.UnmarshalMap` into `map[string]string`. -/
def unmarshalStringMap : List (String × AttrVal) → Except StoreError (List (String × String))
  | [] => .ok []
  | (k, v) :: rest =>
      match attrToText v, unmarshalStringMap rest with
      | .ok t, .ok m => .ok ((k, t) :: m)
      | .error e, _ => .error e
      | _, .error e => .error e

/-- `attributevalue.MarshalMap` of a `map[string]string`: every value becomes
a text attribute. -/
def marshalStringMap (m : List (String × String)) : List (String × AttrVal) :=
  m.map (fun p => (p.1, AttrVal.s p.2))

/-- `encodeLastEvaluatedKey`: a nil last-evaluated-key encodes to the empty
string; otherwise project to a string map, serialize to JSON and encode the
bytes as RawURL base64. -/
def encodeLastEvaluatedKey : Option (List (String × AttrVal)) → Except StoreError String
  | none => .ok ""
  | some lek =>
      match unmarshalStringMap lek with
      | .error e => .error e
      | .ok m => .ok (String.mk (b64Encode (utf8Encode (renderObj m))))

/-- `parseLastEvaluatedKey`: base64-decode, JSON-decode and re-marshal the
string map to native attributes (the result becomes the query's exclusive
start key). -/
def parseLastEvaluatedKey (cursor : String) : Except StoreError (List (String × AttrVal)) :=
  match b64Decode cursor.data with
  | none => .error .codecError
  | some bytes =>
      match utf8Decode bytes with
      | none => .error .codecError
      | some chars =>
          match parseObj chars with
          | none => .error .codecError
          | some m => .ok (marshalStringMap m)

/-! ### List query construction -/

/-- A named secondary index with its own key attribute names. Modelled from
the spec: the index read option is missing from src (the snapshot's
`readOptions` and `ListBySortKeyPrefix` predate it; the integration test
calling `ReadWithIndex` is its only trace under src/). -/
structure indexDef where
  name : String
  partitionKeyName : String
  sortKeyName : String
deriving DecidableEq

/-- readOptions: consistent read, resume cursor, limit, and the optional
index (the `index` field is spec-modelled, see `indexDef`). -/
structure readOptions where
  consistentRead : Bool
  lastEvaluatedKey : String
  limit : Int
  index : Option indexDef
deriving DecidableEq

/-- `defaultReadOptions`: all Go zero values. -/
def defaultReadOptions : readOptions :=
  { consistentRead := false, lastEvaluatedKey := "", limit := 0, index := none }

/-- Key-condition expressions used by the list query. -/
inductive KeyCond where
  | keyEq (name : String) (v : AttrVal)
  | beginsWith (name : String) (pre : String)
  | and (a b : KeyCond)
deriving DecidableEq

/-- The query request sent to the backend (`dynamodb.QueryInput`). -/
structure QueryReq where
  indexName : Option String
  keyCondition : KeyCond
  limit : Option Int
  exclusiveStartKey : Option (List (String × AttrVal))
deriving DecidableEq

/-- The query ListBySortKeyPrefix builds: partition key equality and
sort-key-begins-with over the primary key attribute names, plus the decoded
resume cursor (when given) and the limit (when > 0). The index redirection
is modelled from the spec: when an index option is supplied, the query names
that index and uses its partition/sort attribute names instead of the
primary key schema. -/
def buildQuery (f : fieldsDef) (pk : AttrVal) (pre : String) (opts : readOptions) :
    Except StoreError QueryReq :=
  let names : String × String :=
    match opts.index with
    | some idx => (idx.partitionKeyName, idx.sortKeyName)
    | none => (f.partitionKeyName, f.sortKeyName)
  let startKey : Except StoreError (Option (List (String × AttrVal))) :=
    if opts.lastEvaluatedKey = "" then .ok none
    else
      match parseLastEvaluatedKey opts.lastEvaluatedKey with
      | .error e => .error e
      | .ok m => .ok (some m)
  match startKey with
  | .error e => .error e
  | .ok sk =>
      .ok { indexName := opts.index.map (fun idx => idx.name)
            keyCondition := (KeyCond.keyEq names.1 pk).and (.beginsWith names.2 pre)
            limit := if opts.limit > 0 then some opts.limit else none
            exclusiveStartKey := sk }

/-! ### Basic lemmas on items and update application -/

theorem getAttr_removeAttr_ne (it : Item) {k k' : String} (h : k ≠ k') :
    getAttr (removeAttr it k) k' = getAttr it k' := by
  induction it with
  | nil => rfl
  | cons p rest ih =>
      obtain ⟨a, v⟩ := p
      by_cases hak : a = k
      · subst hak
        simp [removeAttr, getAttr, h] at ih ⊢
        simpa [removeAttr] using ih
      · by_cases hak' : a = k'
        · subst hak'
          simp [removeAttr, getAttr, hak]
        · simp [removeAttr, getAttr, hak, hak'] at ih ⊢
          simpa [removeAttr] using ih

theorem getAttr_setAttr_self (it : Item) (k : String) (v : AttrVal) :
    getAttr (setAttr it k v) k = some v := by
  simp [setAttr, getAttr]

theorem getAttr_setAttr_ne (it : Item) {k k' : String} (v : AttrVal) (h : k ≠ k') :
    getAttr (setAttr it k v) k' = getAttr it k' := by
  simp [setAttr, getAttr, h, getAttr_removeAttr_ne it h]

theorem applyClause_add_eq (it : Item) (k : String) (v : Int) :
    applyClause it (.add k v) = setAttr it k (.n (addBase (getAttr it k) + v)) := by
  simp only [applyClause]
  rcases h : getAttr it k with _ | a
  · simp [h, addBase]
  · cases a <;> simp [h, addBase]

theorem getAttr_applyClause_ne (it : Item) (c : Clause) {k : String}
    (h : clauseName c ≠ k) : getAttr (applyClause it c) k = getAttr it k := by
  cases c with
  | add name v =>
      simp only [clauseName] at h
      rw [applyClause_add_eq, getAttr_setAttr_ne it _ h]
  | set name v =>
      simp only [clauseName] at h
      simp only [applyClause]
      exact getAttr_setAttr_ne it _ h

theorem getAttr_applyUpdate_ne :
    ∀ (cs : List Clause) (it : Item) {k : String},
      (∀ c ∈ cs, clauseName c ≠ k) → getAttr (applyUpdate it cs) k = getAttr it k
  | [], _, _, _ => rfl
  | c :: cs, it, k, h => by
      have hrec := getAttr_applyUpdate_ne cs (applyClause it c)
        (fun c' hc' => h c' (List.mem_cons_of_mem _ hc'))
      have hc : clauseName c ≠ k := h c (List.mem_cons_self _ _)
      calc getAttr (applyUpdate it (c :: cs)) k
          = getAttr (applyUpdate (applyClause it c) cs) k := rfl
        _ = getAttr (applyClause it c) k := hrec
        _ = getAttr it k := getAttr_applyClause_ne it c hc

/-- After an ADD-1-to-version clause followed by clauses not touching the
version attribute, the version attribute holds its prior value plus one. -/
theorem version_after_applyUpdate (base : Item) (rest : List Clause) (verName : String)
    (h : ∀ c ∈ rest, clauseName c ≠ verName) :
    getAttr (applyUpdate base (Clause.add verName 1 :: rest)) verName =
      some (.n (addBase (getAttr base verName) + 1)) := by
  calc getAttr (applyUpdate base (Clause.add verName 1 :: rest)) verName
      = getAttr (applyUpdate (applyClause base (.add verName 1)) rest) verName := rfl
    _ = getAttr (applyClause base (.add verName 1)) verName :=
        getAttr_applyUpdate_ne rest _ h
    _ = some (.n (addBase (getAttr base verName) + 1)) := by
        rw [applyClause_add_eq, getAttr_setAttr_self]

/-! ### Lemmas on update-clause construction -/

theorem addExtraFields_ok_shape (f : fieldsDef) :
    ∀ (extras : List (String × AttrVal)) (cs cs' : List Clause),
      addExtraFields f cs extras = .ok cs' →
      ∃ tail, cs' = cs ++ tail ∧ ∀ c ∈ tail, isReservedField f (clauseName c) = false
  | [], cs, cs', h => by
      refine ⟨[], ?_, by simp⟩
      simpa [addExtraFields] using (Except.ok.inj h).symm
  | (k, v) :: rest, cs, cs', h => by
      by_cases hres : isReservedField f k
      · simp [addExtraFields, hres] at h
      · simp only [addExtraFields, hres, Bool.false_eq_true, if_false] at h
        obtain ⟨tail, htail, hall⟩ := addExtraFields_ok_shape f rest (cs ++ [.set k v]) cs' h
        refine ⟨Clause.set k v :: tail, by simpa using htail, ?_⟩
        intro c hc
        rcases List.mem_cons.mp hc with hc | hc
        · subst hc
          simpa [clauseName] using hres
        · exact hall c hc

theorem addExtraFields_reserved (f : fieldsDef) :
    ∀ (extras : List (String × AttrVal)) (cs : List Clause),
      (∃ p ∈ extras, isReservedField f p.1 = true) →
      addExtraFields f cs extras = .error .reservedField
  | [], _, h => by simp at h
  | (k, v) :: rest, cs, h => by
      by_cases hres : isReservedField f k
      · simp [addExtraFields, hres]
      · simp only [addExtraFields, hres, Bool.false_eq_true, if_false]
        apply addExtraFields_reserved f rest
        obtain ⟨p, hp, hpres⟩ := h
        rcases List.mem_cons.mp hp with hp | hp
        · subst hp; exact absurd hpres (by simpa using hres)
        · exact ⟨p, hp, hpres⟩

/-- A successful `buildUpdate` starts with the ADD-1-to-version clause, and
every later clause writes the literal "payload" or "expires" attribute or a
non-reserved extra field. -/
theorem buildUpdate_ok_shape (f : fieldsDef) (value : AttrVal) (now : Int)
    (opts : writeOptions) (cs : List Clause)
    (h : buildUpdate f value now opts = .ok cs) :
    ∃ rest, cs = Clause.add f.versionName 1 :: rest ∧
      ∀ c ∈ rest, clauseName c = "payload" ∨ clauseName c = "expires" ∨
        isReservedField f (clauseName c) = false := by
  unfold buildUpdate at h
  rcases hef : addExtraFields f [.add f.versionName 1, .set "payload" value] opts.extraFields with e | cs0
  · rw [hef] at h; exact absurd h (by simp)
  · rw [hef] at h
    obtain ⟨tail, htail, hall⟩ := addExtraFields_ok_shape f _ _ _ hef
    by_cases httl : opts.ttl > 0
    · simp only [httl, if_true] at h
      refine ⟨.set "payload" value :: tail ++ [.set "expires" (.n (now + opts.ttl))], ?_, ?_⟩
      · rw [← Except.ok.inj h, htail]; simp
      · intro c hc
        rcases List.mem_cons.mp hc with hc | hc
        · subst hc; left; rfl
        · rcases List.mem_append.mp hc with hc | hc
          · exact Or.inr (Or.inr (hall c hc))
          · have := List.mem_singleton.mp hc
            subst this; right; left; rfl
    · simp only [httl, if_false] at h
      refine ⟨.set "payload" value :: tail, ?_, ?_⟩
      · rw [← Except.ok.inj h, htail]; simp
      · intro c hc
        rcases List.mem_cons.mp hc with hc | hc
        · subst hc; left; rfl
        · exact Or.inr (Or.inr (hall c hc))

/-- With the default field naming, no clause after the head of a successful
`buildUpdate` writes the version attribute. -/
theorem buildUpdate_rest_not_version (rest : List Clause)
    (hshape : ∀ c ∈ rest, clauseName c = "payload" ∨ clauseName c = "expires" ∨
      isReservedField defaultFields (clauseName c) = false) :
    ∀ c ∈ rest, clauseName c ≠ defaultFields.versionName := by
  intro c hc hver
  rcases hshape c hc with hp | he | hnr
  · rw [hver] at hp; exact absurd hp (by decide)
  · rw [hver] at he; exact absurd he (by decide)
  · rw [hver] at hnr; exact absurd hnr (by decide)

/-- Applying a successful `buildUpdate` (default field naming) increments the
version attribute of the base image by one. -/
theorem applyUpdate_buildUpdate_version (base : Item) (value : AttrVal) (now : Int)
    (opts : writeOptions) (cs : List Clause)
    (hbu : buildUpdate defaultFields value now opts = .ok cs) :
    getAttr (applyUpdate base cs) defaultFields.versionName =
      some (.n (addBase (getAttr base defaultFields.versionName) + 1)) := by
  obtain ⟨rest, hcs, hshape⟩ := buildUpdate_ok_shape defaultFields value now opts cs hbu
  subst hcs
  exact version_after_applyUpdate base rest defaultFields.versionName
    (buildUpdate_rest_not_version rest hshape)

/-! ### Claim theorems -/

/-- C1: for every successful Create call where no record previously exists at
the given (partitionKey, sortKey), the Version field of the returned
OperationResult equals 1: the update clause adds 1 to the version attribute
and the post-update image's version attribute is decoded into the result. -/
theorem create_version_one (pk sk value : AttrVal) (now : Int) (opts : writeOptions)
    (res : OperationResult)
    (h : (create defaultFields pk sk value now opts none).1 = .ok res) :
    res.Version = 1 := by
  simp only [create, runWrite, buildCreateRequest] at h
  rcases hbu : buildUpdate defaultFields value now opts with e | cs
  · rw [hbu] at h; simp at h
  · rw [hbu] at h
    simp only at h
    have hpass : updateItem none
        ⟨keyItem defaultFields pk sk, createCondition defaultFields opts, cs⟩ =
        .ok (applyUpdate (keyItem defaultFields pk sk) cs) := by
      unfold updateItem
      by_cases hd : opts.createConstraintDisabled
      · simp [createCondition, hd]
      · simp [createCondition, hd, evalCond, getAttr]
    rw [hpass] at h
    simp only at h
    rw [applyUpdate_buildUpdate_version _ value now opts cs hbu] at h
    have hbase : getAttr (keyItem defaultFields pk sk) defaultFields.versionName = none := rfl
    rw [hbase] at h
    simp [decodeVersion, addBase] at h
    rw [← h]

/-- C2: for every successful Update call on an existing record, the Version
field of the returned OperationResult equals the record's stored version
before the call plus 1, regardless of the payload value supplied. -/
theorem update_version_increment (pk sk value : AttrVal) (now : Int) (opts : writeOptions)
    (item : Item) (prev : Int) (res : OperationResult)
    (hver : getAttr item defaultFields.versionName = some (.n prev))
    (h : (update defaultFields pk sk value now opts (some item)).1 = .ok res) :
    res.Version = prev + 1 := by
  simp only [update, runWrite, buildUpdateRequest] at h
  rcases hbu : buildUpdate defaultFields value now opts with e | cs
  · rw [hbu] at h; simp at h
  · rw [hbu] at h
    simp only at h
    rcases hpass : updateItem (some item)
        ⟨keyItem defaultFields pk sk, some (updateCondition defaultFields opts), cs⟩ with e | newItem
    · rw [hpass] at h; simp at h
    · rw [hpass] at h
      simp only at h
      have hnew : newItem = applyUpdate item cs := by
        unfold updateItem at hpass
        rcases hcond : evalCond (updateCondition defaultFields opts) item with _ | _
        · simp [hcond] at hpass
        · simp [hcond] at hpass
          exact hpass.symm
      subst hnew
      rw [applyUpdate_buildUpdate_version _ value now opts cs hbu, hver] at h
      simp [decodeVersion, addBase] at h
      rw [← h]

/-- C3: Update's write condition requires both key attributes to exist and
adds the version-equality clause exactly when the expected-version option is
greater than 0; an Update whose expected version equals the current stored
version succeeds, while any other positive expected version fails with the
backend's conditional error (passed through, not a store-defined kind). -/
theorem update_optimistic_lock (pk sk value : AttrVal) (now : Int) (opts : writeOptions)
    (item : Item) (cur : Int) (cs : List Clause)
    (hbu : buildUpdate defaultFields value now opts = .ok cs)
    (hpk : (getAttr item defaultFields.partitionKeyName).isSome = true)
    (hsk : (getAttr item defaultFields.sortKeyName).isSome = true)
    (hver : getAttr item defaultFields.versionName = some (.n cur)) :
    (evalCond (updateCondition defaultFields opts) item = true ↔
      (opts.version > 0 → opts.version = cur)) ∧
    (opts.version = cur →
      ∃ res newItem, update defaultFields pk sk value now opts (some item) =
        (.ok res, some newItem)) ∧
    (opts.version > 0 → opts.version ≠ cur →
      update defaultFields pk sk value now opts (some item) =
        (.error (.backendError .conditionalCheckFailed), some item)) := by
  have hchar : evalCond (updateCondition defaultFields opts) item = true ↔
      (opts.version > 0 → opts.version = cur) := by
    unfold updateCondition
    by_cases hv : opts.version > 0
    · simp [hv, evalCond, hpk, hsk, hver]
      exact eq_comm
    · simp [hv, evalCond, hpk, hsk]
  refine ⟨hchar, ?_, ?_⟩
  · intro hveq
    have hpass : evalCond (updateCondition defaultFields opts) item = true :=
      hchar.mpr (fun _ => hveq)
    simp only [update, runWrite, buildUpdateRequest, hbu]
    simp only [updateItem, Option.getD, hpass, if_true]
    rw [applyUpdate_buildUpdate_version _ value now opts cs hbu, hver]
    exact ⟨_, _, rfl⟩
  · intro hv hne
    have hpass : evalCond (updateCondition defaultFields opts) item = false := by
      rcases hb : evalCond (updateCondition defaultFields opts) item with _ | _
      · rfl
      · exact absurd (hchar.mp hb hv) hne
    simp only [update, runWrite, buildUpdateRequest, hbu]
    simp only [updateItem, Option.getD, hpass, if_false]
    rfl

/-- C4: Create's write condition requires that neither key attribute exists
(so Create on an existing identity fails with the backend's conditional
error), and the create-constraint-disabled option removes the guard so that
Create on an existing (partitionKey, sortKey) succeeds (upsert semantics). -/
theorem create_existence_guard (pk sk value : AttrVal) (now : Int) (opts : writeOptions)
    (item : Item) (cs : List Clause)
    (hbu : buildUpdate defaultFields value now opts = .ok cs)
    (hpk : (getAttr item defaultFields.partitionKeyName).isSome = true) :
    (createCondition defaultFields { opts with createConstraintDisabled := false } =
      some ((Cond.attrNotExists defaultFields.partitionKeyName).and
        (.attrNotExists defaultFields.sortKeyName))) ∧
    (opts.createConstraintDisabled = false →
      create defaultFields pk sk value now opts (some item) =
        (.error (.backendError .conditionalCheckFailed), some item)) ∧
    (opts.createConstraintDisabled = true →
      ∃ res newItem, create defaultFields pk sk value now opts (some item) =
        (.ok res, some newItem)) := by
  refine ⟨by simp [createCondition], ?_, ?_⟩
  · intro hd
    have hguard : evalCond ((Cond.attrNotExists defaultFields.partitionKeyName).and
        (.attrNotExists defaultFields.sortKeyName)) item = false := by
      simp [evalCond, hpk]
    simp only [create, runWrite, buildCreateRequest, hbu]
    simp only [createCondition, hd, Bool.false_eq_true, if_false]
    simp only [updateItem, Option.getD, hguard, if_false]
    rfl
  · intro hd
    simp only [create, runWrite, buildCreateRequest, hbu]
    simp only [createCondition, hd, if_true]
    simp only [updateItem, Option.getD, if_true]
    rw [applyUpdate_buildUpdate_version _ value now opts cs hbu]
    exact ⟨_, _, rfl⟩

/-- C5: with the existence check enabled (the default), a backend
conditional-check failure on Delete is remapped to the store-defined
`ErrDeleteFailedKeyNotExists`; with the check disabled no condition is
attached, so Delete on a nonexistent (partitionKey, sortKey) succeeds and
returns nil. -/
theorem delete_existence_check (slot : Option Item)
    (hfail : evalCond ((Cond.attrExists defaultFields.partitionKeyName).and
      (.attrExists defaultFields.sortKeyName)) (slot.getD []) = false) :
    defaultDeleteOptions.existsCheck = true ∧
    delete defaultFields defaultDeleteOptions slot = (.error .deleteFailedKeyNotExists, slot) ∧
    deleteCondition defaultFields { existsCheck := false } = none ∧
    delete defaultFields { existsCheck := false } none = (.ok (), none) := by
  refine ⟨rfl, ?_, rfl, rfl⟩
  simp only [delete, deleteItem, deleteCondition, defaultDeleteOptions, if_true, hfail,
    Bool.false_eq_true, if_false]

/-- C6: any Create or Update call whose extra-fields option holds a key equal
to one of the five reserved attribute names fails with `ErrReservedField`
during update-clause construction, before any backend request, leaving the
stored record unchanged. -/
theorem reserved_extra_field_rejected (pk sk value : AttrVal) (now : Int)
    (opts : writeOptions) (k : String) (v : AttrVal) (slot : Option Item)
    (hmem : (k, v) ∈ opts.extraFields)
    (hres : isReservedField defaultFields k = true) :
    buildUpdate defaultFields value now opts = .error .reservedField ∧
    create defaultFields pk sk value now opts slot = (.error .reservedField, slot) ∧
    update defaultFields pk sk value now opts slot = (.error .reservedField, slot) := by
  have hbu : buildUpdate defaultFields value now opts = .error .reservedField := by
    unfold buildUpdate
    rw [addExtraFields_reserved defaultFields opts.extraFields _ ⟨(k, v), hmem, hres⟩]
  refine ⟨hbu, ?_, ?_⟩
  · simp only [create, runWrite, buildCreateRequest, hbu]
  · simp only [update, runWrite, buildUpdateRequest, hbu]

/-- C8: a Get whose backend response lacks the payload attribute returns the
value type's zero value with no error, and an absent version attribute
yields Version 0 (a present numeric version is decoded into the result). -/
theorem get_missing_payload (V : Type) (decodeV : AttrVal → Except StoreError V) (z : V)
    (item : Item)
    (hpay : getAttr item defaultFields.payloadName = none) :
    (getAttr item defaultFields.versionName = none →
      Get defaultFields item decodeV z = .ok ({ Version := 0 }, z)) ∧
    (∀ vv : Int, getAttr item defaultFields.versionName = some (.n vv) →
      Get defaultFields item decodeV z = .ok ({ Version := vv }, z)) := by
  constructor
  · intro hv
    simp only [Get, hpay, hv, decodeVersion]
  · intro vv hv
    simp only [Get, hpay, hv, decodeVersion]

/-- C9: when an index read option is supplied, the built query names that
index and uses its partition/sort attribute names in the key condition;
without it the query uses the store's primary partition/sort attribute
names and no index name. -/
theorem list_query_index (f : fieldsDef) (pk : AttrVal) (pre : String)
    (opts : readOptions) (idx : indexDef)
    (hlek : opts.lastEvaluatedKey = "") :
    buildQuery f pk pre { opts with index := some idx } =
      .ok ⟨some idx.name,
        (KeyCond.keyEq idx.partitionKeyName pk).and (.beginsWith idx.sortKeyName pre),
        if opts.limit > 0 then some opts.limit else none, none⟩ ∧
    buildQuery f pk pre { opts with index := none } =
      .ok ⟨none,
        (KeyCond.keyEq f.partitionKeyName pk).and (.beginsWith f.sortKeyName pre),
        if opts.limit > 0 then some opts.limit else none, none⟩ := by
  cases opts
  simp only at hlek
  constructor
  · simp only [buildQuery, hlek, if_true, Option.map]
  · simp only [buildQuery, hlek, if_true, Option.map]

/-- C10: Create never reads the expected-version write option: the request
it builds (key, condition, update clauses) and its whole behavior are
identical whether or not a version option of any value is supplied. -/
theorem create_ignores_version_option (f : fieldsDef) (pk sk value : AttrVal) (now : Int)
    (opts : writeOptions) (v : Int) (slot : Option Item) :
    buildCreateRequest f pk sk value now (writeWithVersion v opts) =
      buildCreateRequest f pk sk value now opts ∧
    create f pk sk value now (writeWithVersion v opts) slot =
      create f pk sk value now opts slot := by
  cases opts
  exact ⟨rfl, rfl⟩

/-! ### Cursor codec round-trip lemmas -/

theorem sextet_roundtrip : ∀ n : Nat, n < 64 → sextetOfChar (charOfSextet n) = some n := by
  decide

theorem b64_roundtrip :
    ∀ l : List Nat, (∀ x ∈ l, x < 256) → b64Decode (b64Encode l) = some l
  | [], _ => rfl
  | [a], h => by
      have ha : a < 256 := h a (by simp)
      simp only [b64Encode, b64Decode]
      rw [sextet_roundtrip (a / 4) (by omega), sextet_roundtrip (a % 4 * 16) (by omega)]
      show some [a / 4 * 4 + a % 4 * 16 / 16] = some [a]
      have hval : a / 4 * 4 + a % 4 * 16 / 16 = a := by omega
      rw [hval]
  | [a, b], h => by
      have ha : a < 256 := h a (by simp)
      have hb : b < 256 := h b (by simp)
      simp only [b64Encode, b64Decode]
      rw [sextet_roundtrip (a / 4) (by omega),
        sextet_roundtrip (a % 4 * 16 + b / 16) (by omega),
        sextet_roundtrip (b % 16 * 4) (by omega)]
      show some [a / 4 * 4 + (a % 4 * 16 + b / 16) / 16,
        (a % 4 * 16 + b / 16) % 16 * 16 + b % 16 * 4 / 4] = some [a, b]
      have h1 : a / 4 * 4 + (a % 4 * 16 + b / 16) / 16 = a := by omega
      have h2 : (a % 4 * 16 + b / 16) % 16 * 16 + b % 16 * 4 / 4 = b := by omega
      rw [h1, h2]
  | a :: b :: c :: rest, h => by
      have ha : a < 256 := h a (by simp)
      have hb : b < 256 := h b (by simp)
      have hc : c < 256 := h c (by simp)
      have ih := b64_roundtrip rest (fun x hx => h x (by simp [hx]))
      simp only [b64Encode, b64Decode]
      rw [sextet_roundtrip (a / 4) (by omega),
        sextet_roundtrip (a % 4 * 16 + b / 16) (by omega),
        sextet_roundtrip (b % 16 * 4 + c / 64) (by omega),
        sextet_roundtrip (c % 64) (by omega), ih]
      show some ((a / 4 * 4 + (a % 4 * 16 + b / 16) / 16) ::
        ((a % 4 * 16 + b / 16) % 16 * 16 + (b % 16 * 4 + c / 64) / 4) ::
        ((b % 16 * 4 + c / 64) % 4 * 64 + c % 64) :: rest) = some (a :: b :: c :: rest)
      have h1 : a / 4 * 4 + (a % 4 * 16 + b / 16) / 16 = a := by omega
      have h2 : (a % 4 * 16 + b / 16) % 16 * 16 + (b % 16 * 4 + c / 64) / 4 = b := by omega
      have h3 : (b % 16 * 4 + c / 64) % 4 * 64 + c % 64 = c := by omega
      rw [h1, h2, h3]

theorem char_toNat_lt (c : Char) : c.toNat < 1114112 := by
  rcases c.valid with h | ⟨h1, h2⟩
  · exact Nat.lt_trans h (by decide)
  · exact h2

theorem utf8EncodeChar_lt (c : Char) : ∀ x ∈ utf8EncodeChar c, x < 256 := by
  have hv : c.toNat < 1114112 := char_toNat_lt c
  intro x hx
  by_cases h1 : c.toNat < 128
  · simp [utf8EncodeChar, h1] at hx; omega
  · by_cases h2 : c.toNat < 2048
    · simp [utf8EncodeChar, h1, h2] at hx
      rcases hx with hx | hx <;> omega
    · by_cases h3 : c.toNat < 65536
      · simp [utf8EncodeChar, h1, h2, h3] at hx
        rcases hx with hx | hx | hx <;> omega
      · simp [utf8EncodeChar, h1, h2, h3] at hx
        rcases hx with hx | hx | hx | hx <;> omega

theorem utf8Encode_lt (s : List Char) : ∀ x ∈ utf8Encode s, x < 256 := by
  intro x hx
  simp only [utf8Encode, List.mem_flatten, List.mem_map] at hx
  obtain ⟨l, ⟨c, _, rfl⟩, hxl⟩ := hx
  exact utf8EncodeChar_lt c x hxl

theorem utf8EncodeChar_ne_nil (c : Char) : utf8EncodeChar c ≠ [] := by
  unfold utf8EncodeChar
  by_cases h1 : c.toNat < 128
  · simp [h1]
  · by_cases h2 : c.toNat < 2048
    · simp [h1, h2]
    · by_cases h3 : c.toNat < 65536
      · simp [h1, h2, h3]
      · simp [h1, h2, h3]

theorem utf8EncodeChar_length_pos (c : Char) : 1 ≤ (utf8EncodeChar c).length := by
  rcases h : utf8EncodeChar c with _ | ⟨v, vs⟩
  · exact absurd h (utf8EncodeChar_ne_nil c)
  · simp

theorem utf8Encode_length : ∀ s : List Char, s.length ≤ (utf8Encode s).length
  | [] => Nat.le_refl 0
  | c :: s => by
      have h1 := utf8EncodeChar_length_pos c
      have h2 := utf8Encode_length s
      have henc : utf8Encode (c :: s) = utf8EncodeChar c ++ utf8Encode s := by
        simp [utf8Encode]
      rw [henc]
      simp only [List.length_append, List.length_cons]
      omega

theorem utf8DecodeChar_encodeChar (c : Char) (tail : List Nat) :
    utf8DecodeChar (utf8EncodeChar c ++ tail) = some (c, tail) := by
  have hv : c.toNat < 1114112 := char_toNat_lt c
  have hof : Char.ofNat c.toNat = c := Char.ofNat_toNat c
  by_cases h1 : c.toNat < 128
  · rw [show utf8EncodeChar c = [c.toNat] from by rw [utf8EncodeChar, if_pos h1]]
    rw [List.cons_append, List.nil_append, utf8DecodeChar, if_pos h1, hof]
  · by_cases h2 : c.toNat < 2048
    · have ha : ¬(192 + c.toNat / 64 < 128) := by omega
      have hb : 192 + c.toNat / 64 < 224 := by omega
      rw [show utf8EncodeChar c = [192 + c.toNat / 64, 128 + c.toNat % 64] from by
        rw [utf8EncodeChar, if_neg h1, if_pos h2]]
      rw [List.cons_append, List.cons_append, List.nil_append, utf8DecodeChar,
        if_neg ha, if_pos hb, utf8Dec2]
      have hcp : (192 + c.toNat / 64 - 192) * 64 + (128 + c.toNat % 64 - 128) = c.toNat := by
        omega
      rw [hcp, hof]
    · by_cases h3 : c.toNat < 65536
      · have ha : ¬(224 + c.toNat / 4096 < 128) := by omega
        have hb : ¬(224 + c.toNat / 4096 < 224) := by omega
        have hc : 224 + c.toNat / 4096 < 240 := by omega
        rw [show utf8EncodeChar c =
            [224 + c.toNat / 4096, 128 + c.toNat / 64 % 64, 128 + c.toNat % 64] from by
          rw [utf8EncodeChar, if_neg h1, if_neg h2, if_pos h3]]
        rw [List.cons_append, List.cons_append, List.cons_append, List.nil_append,
          utf8DecodeChar, if_neg ha, if_neg hb, if_pos hc, utf8Dec3]
        have hcp : (224 + c.toNat / 4096 - 224) * 4096 + (128 + c.toNat / 64 % 64 - 128) * 64 +
            (128 + c.toNat % 64 - 128) = c.toNat := by omega
        rw [hcp, hof]
      · have ha : ¬(240 + c.toNat / 262144 < 128) := by omega
        have hb : ¬(240 + c.toNat / 262144 < 224) := by omega
        have hc : ¬(240 + c.toNat / 262144 < 240) := by omega
        rw [show utf8EncodeChar c = [240 + c.toNat / 262144, 128 + c.toNat / 4096 % 64,
            128 + c.toNat / 64 % 64, 128 + c.toNat % 64] from by
          rw [utf8EncodeChar, if_neg h1, if_neg h2, if_neg h3]]
        rw [List.cons_append, List.cons_append, List.cons_append, List.cons_append,
          List.nil_append, utf8DecodeChar, if_neg ha, if_neg hb, if_neg hc, utf8Dec4]
        have hcp : (240 + c.toNat / 262144 - 240) * 262144 +
            (128 + c.toNat / 4096 % 64 - 128) * 4096 +
            (128 + c.toNat / 64 % 64 - 128) * 64 + (128 + c.toNat % 64 - 128) = c.toNat := by
          omega
        rw [hcp, hof]

theorem utf8DecodeAux_encode :
    ∀ (s : List Char) (fuel : Nat), s.length ≤ fuel →
      utf8DecodeAux fuel (utf8Encode s) = some s
  | [], fuel, _ => by
      cases fuel <;> rfl
  | c :: s, fuel, hfuel => by
      have henc : utf8Encode (c :: s) = utf8EncodeChar c ++ utf8Encode s := by
        simp [utf8Encode]
      rcases hch : utf8EncodeChar c with _ | ⟨v, vs⟩
      · exact absurd hch (utf8EncodeChar_ne_nil c)
      · rcases fuel with _ | f
        · simp at hfuel
        · have hdec : utf8DecodeChar (v :: (vs ++ utf8Encode s)) = some (c, utf8Encode s) := by
            rw [show v :: (vs ++ utf8Encode s) = utf8EncodeChar c ++ utf8Encode s from by
              rw [hch, List.cons_append]]
            exact utf8DecodeChar_encodeChar c (utf8Encode s)
          have ih := utf8DecodeAux_encode s f (by simpa using hfuel)
          rw [henc, hch, List.cons_append, utf8DecodeAux, hdec]
          show (utf8DecodeAux f (utf8Encode s)).map (c :: ·) = some (c :: s)
          rw [ih]
          rfl

theorem utf8_roundtrip (s : List Char) : utf8Decode (utf8Encode s) = some s :=
  utf8DecodeAux_encode s (utf8Encode s).length (utf8Encode_length s)

theorem parseString_cons_cons (c c2 : Char) (rest : List Char) :
    parseString (c :: c2 :: rest) =
      if c = '\\' then (parseString rest).map (fun p => (c2 :: p.1, p.2))
      else if c = '"' then some ([], c2 :: rest)
      else (parseString (c2 :: rest)).map (fun p => (c :: p.1, p.2)) := rfl

theorem parseString_render :
    ∀ (s r : List Char),
      parseString ((s.map escapeChar).flatten ++ '"' :: r) = some (s, r)
  | [], r => by
      cases r with
      | nil => rfl
      | cons x xs => rfl
  | c :: s, r => by
      have ih := parseString_render s r
      by_cases hc : c = '"' ∨ c = '\\'
      · have hesc : escapeChar c = ['\\', c] := by
          unfold escapeChar
          rw [if_pos hc]
        simp only [List.map_cons, List.flatten_cons, hesc, List.cons_append, List.append_assoc,
          List.nil_append]
        rw [parseString_cons_cons, if_pos rfl, ih]
        rfl
      · push_neg at hc
        obtain ⟨hq, hb⟩ := hc
        have hesc : escapeChar c = [c] := by
          unfold escapeChar
          rw [if_neg (by tauto)]
        simp only [List.map_cons, List.flatten_cons, hesc, List.cons_append, List.append_assoc,
          List.nil_append, List.singleton_append]
        rcases htail : (s.map escapeChar).flatten ++ '"' :: r with _ | ⟨t, ts⟩
        · exact absurd htail (by simp)
        · rw [parseString_cons_cons]
          rw [if_neg hb]
          rw [if_neg hq]
          rw [← htail]
          rw [ih]
          rfl

theorem parseEntry_render (k v : String) (tail : List Char) :
    parseEntry (renderString k.data ++ ':' :: (renderString v.data ++ tail)) =
      some ((k, v), tail) := by
  simp only [renderString, List.cons_append, List.append_assoc, List.singleton_append,
    List.nil_append]
  simp [parseEntry,
    parseString_render k.data (':' :: '"' :: ((v.data.map escapeChar).flatten ++ '"' :: tail)),
    parseString_render v.data tail]

theorem parseEntriesStep_comma (kv : String × String) (r4 : List Char)
    (k : List Char → Option (List (String × String) × List Char)) :
    parseEntriesStep (some (kv, ',' :: r4)) k = (k r4).map (fun p => (kv :: p.1, p.2)) := by
  simp [parseEntriesStep]

theorem parseEntriesStep_brace (kv : String × String) (r4 : List Char)
    (k : List Char → Option (List (String × String) × List Char)) :
    parseEntriesStep (some (kv, '}' :: r4)) k = some ([kv], r4) := by
  simp [parseEntriesStep]

theorem parseEntries_render :
    ∀ (m : List (String × String)) (kv : String × String) (r : List Char) (F : Nat),
      m.length < F →
      parseEntries F (renderEntries (kv :: m) ++ '}' :: r) = some (kv :: m, r)
  | [], (k, v), r, F, hF => by
      rcases F with _ | f
      · simp at hF
      · rw [show renderEntries [(k, v)] ++ '}' :: r =
            renderString k.data ++ ':' :: (renderString v.data ++ '}' :: r) from by
          simp [renderEntries, List.append_assoc]]
        rw [parseEntries, parseEntry_render, parseEntriesStep_brace]
  | kv2 :: m2, (k, v), r, F, hF => by
      rcases F with _ | f
      · simp at hF
      · have ih := parseEntries_render m2 kv2 r f (by simpa using hF)
        rw [show renderEntries ((k, v) :: kv2 :: m2) ++ '}' :: r =
            renderString k.data ++ ':' ::
              (renderString v.data ++ ',' :: (renderEntries (kv2 :: m2) ++ '}' :: r)) from by
          simp [renderEntries, List.append_assoc]]
        rw [parseEntries, parseEntry_render, parseEntriesStep_comma, ih]
        rfl

theorem renderEntries_length : ∀ m : List (String × String), m.length ≤ (renderEntries m).length
  | [] => by simp [renderEntries]
  | [(k, v)] => by simp [renderEntries, renderString]
  | (k, v) :: kv2 :: m2 => by
      have ih := renderEntries_length (kv2 :: m2)
      simp only [renderEntries, renderString, List.length_cons, List.length_append] at ih ⊢
      omega

theorem renderEntries_cons_head :
    ∀ (kv : String × String) (m : List (String × String)),
      ∃ t, renderEntries (kv :: m) = '"' :: t
  | (k, v), [] => by
      refine ⟨(k.data.map escapeChar).flatten ++ '"' :: ':' :: '"' ::
        ((v.data.map escapeChar).flatten ++ ['"']), ?_⟩
      simp [renderEntries, renderString]
  | (k, v), kv2 :: m2 => by
      refine ⟨(k.data.map escapeChar).flatten ++ '"' :: ':' :: '"' ::
        ((v.data.map escapeChar).flatten ++ '"' :: ',' :: renderEntries (kv2 :: m2)), ?_⟩
      simp [renderEntries, renderString]

theorem parseObj_cons (c : Char) (rest : List Char) :
    parseObj (c :: rest) =
      if c = '{' then
        if rest = ['}'] then some []
        else
          match parseEntries (rest.length + 1) rest with
          | some (m, []) => some m
          | _ => none
      else none := rfl

theorem parseObj_render : ∀ (m : List (String × String)), m ≠ [] → parseObj (renderObj m) = some m
  | [], h => absurd rfl h
  | kv :: m2, _ => by
      obtain ⟨t, ht⟩ := renderEntries_cons_head kv m2
      have hne : renderEntries (kv :: m2) ++ ['}'] ≠ ['}'] := by
        rw [ht]; simp
      have hlen := renderEntries_length (kv :: m2)
      have hfuel : m2.length < (renderEntries (kv :: m2) ++ ['}']).length + 1 := by
        simp only [List.length_cons] at hlen
        simp only [List.length_append, List.length_cons, List.length_nil]
        omega
      simp only [renderObj]
      rw [List.cons_append, parseObj_cons, if_pos rfl, if_neg hne]
      rw [parseEntries_render m2 kv [] _ hfuel]

theorem unmarshalStringMap_text :
    ∀ (lek : List (String × AttrVal)), (∀ p ∈ lek, isTextAttr p.2 = true) →
      ∃ m, unmarshalStringMap lek = .ok m ∧ marshalStringMap m = lek ∧
        m.length = lek.length
  | [], _ => ⟨[], rfl, rfl, rfl⟩
  | (k, a) :: rest, h => by
      obtain ⟨m, hm, hmar, hlen⟩ :=
        unmarshalStringMap_text rest (fun p hp => h p (List.mem_cons_of_mem _ hp))
      have ha := h (k, a) (List.mem_cons_self _ _)
      rcases a with t | x | x
      · refine ⟨(k, t) :: m, ?_, ?_, ?_⟩
        · simp [unmarshalStringMap, attrToText, hm]
        · simp [marshalStringMap] at hmar ⊢
          exact hmar
        · simp [hlen]
      · simp [isTextAttr] at ha
      · simp [isTextAttr] at ha

/-- C7: for every non-empty last-evaluated-key attribute map whose attributes
are text scalars, encoding to the opaque cursor string and decoding that
string reproduces the original attribute map exactly; a nil last-evaluated-key
encodes to the empty string (the no-more-pages sentinel). -/
theorem cursor_roundtrip (lek : List (String × AttrVal))
    (hne : lek ≠ [])
    (htext : ∀ p ∈ lek, isTextAttr p.2 = true) :
    (∃ enc, encodeLastEvaluatedKey (some lek) = .ok enc ∧
      parseLastEvaluatedKey enc = .ok lek) ∧
    encodeLastEvaluatedKey none = .ok "" := by
  obtain ⟨m, hm, hmar, hlen⟩ := unmarshalStringMap_text lek htext
  have hmne : m ≠ [] := by
    intro h0
    rw [h0] at hlen
    exact hne (List.length_eq_zero.mp hlen.symm)
  refine ⟨⟨String.mk (b64Encode (utf8Encode (renderObj m))), ?_, ?_⟩, rfl⟩
  · simp [encodeLastEvaluatedKey, hm]
  · simp [parseLastEvaluatedKey, b64_roundtrip _ (utf8Encode_lt (renderObj m)),
      utf8_roundtrip, parseObj_render m hmne, hmar]

/-! ### Witnesses: each claim theorem applied at a concrete input -/

theorem create_version_one_witness :
    (create defaultFields (.s "p") (.s "s1") (.s "data") 0 defaultWriteOptions none).1 =
      .ok { Version := 1, LastEvaluatedKey := "" } ∧
    ({ Version := 1, LastEvaluatedKey := "" } : OperationResult).Version = 1 :=
  ⟨rfl, create_version_one (.s "p") (.s "s1") (.s "data") 0 defaultWriteOptions
    { Version := 1, LastEvaluatedKey := "" } rfl⟩

theorem update_version_increment_witness :
    getAttr [("id", AttrVal.s "p"), ("name", AttrVal.s "s"), ("version", AttrVal.n 1)]
      defaultFields.versionName = some (.n 1) ∧
    (update defaultFields (.s "p") (.s "s") (.s "d") 0 defaultWriteOptions
      (some [("id", AttrVal.s "p"), ("name", AttrVal.s "s"), ("version", AttrVal.n 1)])).1 =
      .ok { Version := 2, LastEvaluatedKey := "" } ∧
    ({ Version := 2, LastEvaluatedKey := "" } : OperationResult).Version = 1 + 1 :=
  ⟨rfl, rfl, update_version_increment (.s "p") (.s "s") (.s "d") 0 defaultWriteOptions
    [("id", AttrVal.s "p"), ("name", AttrVal.s "s"), ("version", AttrVal.n 1)] 1
    { Version := 2, LastEvaluatedKey := "" } rfl rfl⟩

theorem update_optimistic_lock_witness :
    (buildUpdate defaultFields (.s "x") 0 (writeWithVersion 1 defaultWriteOptions) =
      .ok [.add "version" 1, .set "payload" (.s "x")]) ∧
    ((getAttr [("id", AttrVal.s "p"), ("name", AttrVal.s "s"), ("version", AttrVal.n 1)]
      defaultFields.partitionKeyName).isSome = true) ∧
    ((getAttr [("id", AttrVal.s "p"), ("name", AttrVal.s "s"), ("version", AttrVal.n 1)]
      defaultFields.sortKeyName).isSome = true) ∧
    (getAttr [("id", AttrVal.s "p"), ("name", AttrVal.s "s"), ("version", AttrVal.n 1)]
      defaultFields.versionName = some (.n 1)) ∧
    ((evalCond (updateCondition defaultFields (writeWithVersion 1 defaultWriteOptions))
        [("id", AttrVal.s "p"), ("name", AttrVal.s "s"), ("version", AttrVal.n 1)] = true ↔
      ((writeWithVersion 1 defaultWriteOptions).version > 0 →
        (writeWithVersion 1 defaultWriteOptions).version = 1)) ∧
    ((writeWithVersion 1 defaultWriteOptions).version = 1 →
      ∃ res newItem, update defaultFields (.s "x") (.s "x") (.s "x") 0
        (writeWithVersion 1 defaultWriteOptions)
        (some [("id", AttrVal.s "p"), ("name", AttrVal.s "s"), ("version", AttrVal.n 1)]) =
        (.ok res, some newItem)) ∧
    ((writeWithVersion 1 defaultWriteOptions).version > 0 →
      (writeWithVersion 1 defaultWriteOptions).version ≠ 1 →
      update defaultFields (.s "x") (.s "x") (.s "x") 0
        (writeWithVersion 1 defaultWriteOptions)
        (some [("id", AttrVal.s "p"), ("name", AttrVal.s "s"), ("version", AttrVal.n 1)]) =
        (.error (.backendError .conditionalCheckFailed),
          some [("id", AttrVal.s "p"), ("name", AttrVal.s "s"), ("version", AttrVal.n 1)]))) :=
  ⟨rfl, rfl, rfl, rfl, update_optimistic_lock (.s "x") (.s "x") (.s "x") 0
    (writeWithVersion 1 defaultWriteOptions)
    [("id", AttrVal.s "p"), ("name", AttrVal.s "s"), ("version", AttrVal.n 1)] 1
    [.add "version" 1, .set "payload" (.s "x")] rfl rfl rfl rfl⟩

theorem create_existence_guard_witness :
    (buildUpdate defaultFields (.s "x") 0 (writeWithCreateConstraintDisabled true defaultWriteOptions) =
      .ok [.add "version" 1, .set "payload" (.s "x")]) ∧
    ((getAttr [("id", AttrVal.s "p"), ("name", AttrVal.s "s"), ("version", AttrVal.n 1)]
      defaultFields.partitionKeyName).isSome = true) ∧
    ((createCondition defaultFields
        { writeWithCreateConstraintDisabled true defaultWriteOptions with
            createConstraintDisabled := false } =
      some ((Cond.attrNotExists defaultFields.partitionKeyName).and
        (.attrNotExists defaultFields.sortKeyName))) ∧
    ((writeWithCreateConstraintDisabled true defaultWriteOptions).createConstraintDisabled = false →
      create defaultFields (.s "x") (.s "x") (.s "x") 0
        (writeWithCreateConstraintDisabled true defaultWriteOptions)
        (some [("id", AttrVal.s "p"), ("name", AttrVal.s "s"), ("version", AttrVal.n 1)]) =
        (.error (.backendError .conditionalCheckFailed),
          some [("id", AttrVal.s "p"), ("name", AttrVal.s "s"), ("version", AttrVal.n 1)])) ∧
    ((writeWithCreateConstraintDisabled true defaultWriteOptions).createConstraintDisabled = true →
      ∃ res newItem, create defaultFields (.s "x") (.s "x") (.s "x") 0
        (writeWithCreateConstraintDisabled true defaultWriteOptions)
        (some [("id", AttrVal.s "p"), ("name", AttrVal.s "s"), ("version", AttrVal.n 1)]) =
        (.ok res, some newItem))) :=
  ⟨rfl, rfl, create_existence_guard (.s "x") (.s "x") (.s "x") 0
    (writeWithCreateConstraintDisabled true defaultWriteOptions)
    [("id", AttrVal.s "p"), ("name", AttrVal.s "s"), ("version", AttrVal.n 1)]
    [.add "version" 1, .set "payload" (.s "x")] rfl rfl⟩

theorem delete_existence_check_witness :
    evalCond ((Cond.attrExists defaultFields.partitionKeyName).and
      (.attrExists defaultFields.sortKeyName)) ((none : Option Item).getD []) = false ∧
    (defaultDeleteOptions.existsCheck = true ∧
    delete defaultFields defaultDeleteOptions none = (.error .deleteFailedKeyNotExists, none) ∧
    deleteCondition defaultFields { existsCheck := false } = none ∧
    delete defaultFields { existsCheck := false } none = (.ok (), none)) :=
  ⟨rfl, delete_existence_check none rfl⟩

theorem reserved_extra_field_rejected_witness :
    (("version", AttrVal.n 7) ∈
      ({ defaultWriteOptions with extraFields := [("version", AttrVal.n 7)] } :
        writeOptions).extraFields) ∧
    isReservedField defaultFields "version" = true ∧
    (buildUpdate defaultFields (.s "x") 0
      { defaultWriteOptions with extraFields := [("version", AttrVal.n 7)] } =
      .error .reservedField ∧
    create defaultFields (.s "p") (.s "s") (.s "x") 0
      { defaultWriteOptions with extraFields := [("version", AttrVal.n 7)] } none =
      (.error .reservedField, none) ∧
    update defaultFields (.s "p") (.s "s") (.s "x") 0
      { defaultWriteOptions with extraFields := [("version", AttrVal.n 7)] } none =
      (.error .reservedField, none)) :=
  ⟨by decide, by decide, reserved_extra_field_rejected (.s "p") (.s "s") (.s "x") 0
    { defaultWriteOptions with extraFields := [("version", AttrVal.n 7)] }
    "version" (.n 7) none (by decide) (by decide)⟩

theorem cursor_roundtrip_witness :
    ([(("id" : String), AttrVal.s "abc")] ≠ []) ∧
    (∀ p ∈ [(("id" : String), AttrVal.s "abc")], isTextAttr p.2 = true) ∧
    ((∃ enc, encodeLastEvaluatedKey (some [(("id" : String), AttrVal.s "abc")]) = .ok enc ∧
      parseLastEvaluatedKey enc = .ok [(("id" : String), AttrVal.s "abc")]) ∧
    encodeLastEvaluatedKey none = .ok "") :=
  ⟨by decide, by decide,
    cursor_roundtrip [(("id" : String), AttrVal.s "abc")] (by decide) (by decide)⟩

theorem get_missing_payload_witness :
    getAttr [] defaultFields.payloadName = none ∧
    ((getAttr [] defaultFields.versionName = none →
      Get defaultFields [] decodeIntAttr 0 = .ok ({ Version := 0 }, 0)) ∧
    (∀ vv : Int, getAttr [] defaultFields.versionName = some (.n vv) →
      Get defaultFields [] decodeIntAttr 0 = .ok ({ Version := vv }, 0))) :=
  ⟨rfl, get_missing_payload Int decodeIntAttr 0 [] rfl⟩

theorem list_query_index_witness :
    defaultReadOptions.lastEvaluatedKey = "" ∧
    (buildQuery defaultFields (.s "p") "2025"
      { defaultReadOptions with index := some ⟨"idx_created", "id", "created"⟩ } =
      .ok ⟨some (indexDef.mk "idx_created" "id" "created").name,
        (KeyCond.keyEq (indexDef.mk "idx_created" "id" "created").partitionKeyName (.s "p")).and
          (.beginsWith (indexDef.mk "idx_created" "id" "created").sortKeyName "2025"),
        if defaultReadOptions.limit > 0 then some defaultReadOptions.limit else none, none⟩ ∧
    buildQuery defaultFields (.s "p") "2025" { defaultReadOptions with index := none } =
      .ok ⟨none,
        (KeyCond.keyEq defaultFields.partitionKeyName (.s "p")).and
          (.beginsWith defaultFields.sortKeyName "2025"),
        if defaultReadOptions.limit > 0 then some defaultReadOptions.limit else none, none⟩) :=
  ⟨rfl, list_query_index defaultFields (.s "p") "2025" defaultReadOptions
    ⟨"idx_created", "id", "created"⟩ rfl⟩
